import Mathlib

/-!
Verification development for the tkfmRecruitment repository.

The repository turns a screenshot of a game's recruitment screen into tags
(`src/image_ocr.py`), then drives a browser session against an external
web tool and returns the result as a PDF (`src/tkfmtools.py`).  The
definitions below are a shallow embedding of those two modules; theorems
about the frozen claims follow the definitions.
-/

namespace TkfmRecruitment

/-! ## Tag vocabulary (src/image_ocr.py, lines 9-18)

The Python source defines `TAGS` as one set literal, written on seven
lines that group the tags by category (elemental affinity, role, race,
body type, bust size, rank, combat-effect).  We keep the seven groups as
lists and define `TAGS` as their concatenation, in source order. -/

def affinityTags : List String := ["火屬性", "水屬性", "風屬性", "光屬性", "闇屬性"]

def roleTags : List String := ["攻擊者", "守護者", "治療者", "妨礙者", "輔助者"]

def raceTags : List String := ["人類", "魔族", "亞人"]

def bodyTypeTags : List String := ["小體型", "中體型"]

def bustTags : List String := ["貧乳", "美乳", "巨乳"]

def rankTags : List String := ["士兵", "菁英", "領袖"]

def combatTags : List String :=
  ["輸出", "保護", "防禦", "回復", "干擾", "支援",
   "削弱", "爆發力", "生存力", "越戰越強", "群體攻擊", "回擊"]

/-- The valid-tag vocabulary, `TAGS` in src/image_ocr.py lines 9-18. -/
def TAGS : List String :=
  affinityTags ++ roleTags ++ raceTags ++ bodyTypeTags ++ bustTags ++ rankTags ++ combatTags

/-! ## OCR spans and tag extraction (src/image_ocr.py, `img_to_tags`)

`reader.readtext` returns a list of `(bounding_box, text, confidence)`
triples; `img_to_tags` only ever consumes the text component (line 86:
`result_words = [result[1] for result in results]`).  The bounding box is
a list of points and the confidence a float; both are irrelevant to every
claim, so the box is kept as integer points and the confidence as an
opaque natural number. -/

structure OcrSpan where
  boundingBox : List (Int × Int)
  text : String
  confidence : Nat
deriving Repr, DecidableEq

/-- The anchor phrase located in the recognized words
(src/image_ocr.py line 90). -/
def refWord : String := "招募條件"

/-- Index of the first occurrence of `target`, the model of Python's
`list.index` (which raises `ValueError`, modeled by `none`, when the
element is absent). -/
def indexOf? (target : String) : List String → Option Nat
  | [] => none
  | w :: ws => if w = target then some 0 else (indexOf? target ws).map (· + 1)

/-- A Python `dict.get(word, word)` over the word-mapping dictionary
(src/image_ocr.py line 105): the first binding of `word` if present,
otherwise `word` itself. -/
def applyMapping (word_mappings : List (String × String)) (word : String) : String :=
  (word_mappings.lookup word).getD word

/-- The tag-extraction pipeline of `img_to_tags` (src/image_ocr.py lines
86-112), starting from the recognized OCR spans.  The OCR engine itself is
an external capability, so the spans are the input; the word-mapping
dictionary, which the source loads from "./data/word_mappings.yaml" via
`yaml_to_dict`, is likewise passed explicitly.
Steps, with source lines:
* project the spans to their text (line 86);
* find the first index of `'招募條件'`, returning `[]` if absent
  (lines 89-93);
* slice `result_words[ref_word_idx : ref_word_idx + 8]` (line 97);
* replace each word by its mapping entry when present (line 105);
* keep the words that are members of `TAGS` (line 109). -/
def img_to_tags (results : List OcrSpan) (word_mappings : List (String × String)) :
    List String :=
  let result_words := results.map (·.text)
  match indexOf? refWord result_words with
  | none => []
  | some ref_word_idx =>
    let inScope := (result_words.drop ref_word_idx).take 8
    let replaced := inScope.map (applyMapping word_mappings)
    replaced.filter (fun word => TAGS.contains word)

/-- The extraction window, as the spec describes it: the sub-sequence of
the recognized words starting at the anchor, of length at most 8 with the
anchor included; empty when the anchor is absent. -/
def windowWords (results : List OcrSpan) : List String :=
  let ws := results.map (·.text)
  match indexOf? refWord ws with
  | none => []
  | some i => (ws.drop i).take 8

/-! ## Correction-table loading (src/image_ocr.py, `yaml_to_dict`)

`yaml_to_dict` touches the filesystem (`os.path.isfile`, `os.makedirs`,
`open`) and the external `yaml.safe_load` parser.  The filesystem is
modeled as an association list of path entries plus the list of created
directories; the parser is modeled over the line-oriented documents the
correction table uses.  String scanning is done over `String.data`
(lists of characters) so that every definition evaluates. -/

/-- The value `yaml.safe_load` produces for the documents modeled here:
the null document, a string-keyed mapping (a Python `dict`), or a
sequence of strings (a Python `list`). -/
inductive YamlValue where
  | null
  | mapping (entries : List (String × String))
  | sequence (items : List String)
deriving Repr, DecidableEq

/-- Split a character list on a separator character. -/
def splitOnChar (sep : Char) : List Char → List (List Char)
  | [] => [[]]
  | c :: cs =>
    if c = sep then [] :: splitOnChar sep cs
    else
      match splitOnChar sep cs with
      | [] => [[c]]
      | l :: ls => (c :: l) :: ls

/-- Horizontal whitespace stripped by `str.strip` on the lines we model. -/
def isBlankChar (c : Char) : Bool := c = ' ' || c = '\t' || c = '\r'

/-- Strip leading and trailing blanks. -/
def trimChars (l : List Char) : List Char :=
  ((l.dropWhile isBlankChar).reverse.dropWhile isBlankChar).reverse

/-- Split a line at every `": "` separator (the form YAML requires
between a key and a value). -/
def splitColonSpace : List Char → List (List Char)
  | [] => [[]]
  | ':' :: ' ' :: cs => [] :: splitColonSpace cs
  | c :: cs =>
    match splitColonSpace cs with
    | [] => [[c]]
    | l :: ls => (c :: l) :: ls

/-- A `- item` line of a YAML sequence. -/
def isSeqLine (l : List Char) : Bool :=
  match l with
  | '-' :: ' ' :: _ => true
  | _ => false

/-- Parse one `key: value` line. -/
def parseMapLine (l : List Char) : Option (String × String) :=
  if isSeqLine l then none
  else
    match splitColonSpace l with
    | [k, v] => some (String.mk (trimChars k), String.mk (trimChars v))
    | _ => none

/-- A model of the external `yaml.safe_load`, restricted to the
line-oriented documents the correction table uses: comment and blank
lines are ignored; a document of `key: value` lines is a mapping (what
the template and any user-written correction table parse to); a document
of `- item` lines is a sequence, i.e. a Python `list`; any other shape
(which real YAML may parse as a scalar or reject) is collapsed into a
parse error, which is sound for every theorem below because none of them
evaluates the loader on such a document. -/
def safe_load (s : String) : Except Unit YamlValue :=
  let lines := (splitOnChar '\n' s.data).map trimChars
  let relevant := lines.filter (fun l => !(l.isEmpty || l.headD ' ' = '#'))
  if relevant.isEmpty then .ok .null
  else if relevant.all isSeqLine then
    .ok (.sequence (relevant.map (fun l => String.mk (trimChars (l.drop 2)))))
  else
    match relevant.mapM parseMapLine with
    | some entries => .ok (.mapping entries)
    | none => .error ()

/-- Discriminator: is the loaded value a Python `dict`
(a string-to-string mapping)? -/
def YamlValue.isMapping : YamlValue → Bool
  | .mapping _ => true
  | _ => false

/-- Python truthiness on line 65 of src/image_ocr.py:
`yaml.safe_load(f) or {}` replaces a falsy parse result (`None` or an
empty collection) with the empty dict. -/
def orEmptyDict : YamlValue → YamlValue
  | .null => .mapping []
  | .sequence [] => .mapping []
  | v => v

/-- A filesystem entry for a path: a readable regular file with content,
or a file whose `open()` raises an `OSError`. -/
inductive FileEntry where
  | file (content : String)
  | unreadable
deriving Repr, DecidableEq

/-- The filesystem state: path entries (first binding wins) and the set
of directories created so far. -/
structure FS where
  files : List (String × FileEntry)
  dirs : List String
deriving Repr, DecidableEq

/-- `os.path.isfile`. -/
def FS.isfile (fs : FS) (p : String) : Bool := (fs.files.lookup p).isSome

/-- `open(p, 'r').read()`: `none` when the path is absent or unreadable
(the `OSError` path). -/
def FS.readFile (fs : FS) (p : String) : Option String :=
  match fs.files.lookup p with
  | some (.file c) => some c
  | _ => none

/-- `os.path.split`: the part before the last `'/'` (with trailing
slashes stripped unless it is all slashes) and the final component. -/
def splitPath (p : String) : String × String :=
  let cs := p.data
  let tailPart := (cs.reverse.takeWhile (fun c => c ≠ '/')).reverse
  let headRaw := cs.take (cs.length - tailPart.length)
  let head :=
    if headRaw.all (fun c => c = '/') then headRaw
    else (headRaw.reverse.dropWhile (fun c => c = '/')).reverse
  (String.mk head, String.mk tailPart)

/-- Join path components with a separator character. -/
def joinOn (sep : Char) : List (List Char) → List Char
  | [] => []
  | [q] => q
  | q :: qs => q ++ sep :: joinOn sep qs

/-- The chain of paths `os.makedirs` checks or creates for `d`: the join
of each non-empty prefix of the `'/'`-separated components, ending with
`d` itself. -/
def dirChain (d : String) : List String :=
  let parts := splitOnChar '/' d.data
  (List.range parts.length).map (fun k => String.mk (joinOn '/' (parts.take (k + 1))))

/-- `os.makedirs(d, exist_ok=True)` for a non-empty `d`: walks the chain
of prefixes of `d`, raising (`FileExistsError` surviving the `exist_ok`
check) when one exists as a regular file, and otherwise recording the
chain as directories; prefixes that already exist as directories are
fine. -/
def FS.makedirs (fs : FS) (d : String) : Except FS FS :=
  if ∀ q ∈ dirChain d, fs.files.lookup q = none then
    .ok { fs with dirs := dirChain d ++ fs.dirs }
  else .error fs

/-- `open(p, 'w')` followed by `f.write(c)`: raises when the final
component of `p` is empty — a trailing-slash path can never name a
regular file — or when `p` is an existing directory
(`IsADirectoryError`); otherwise creates or truncates the file. -/
def FS.writeFile (fs : FS) (p : String) (c : String) : Except FS FS :=
  if (splitPath p).2 = "" ∨ p ∈ fs.dirs then .error fs
  else .ok { fs with files := (p, .file c) :: fs.files }

/-- `YAML_TEMPLATE` (src/image_ocr.py lines 21-33), written to a missing
correction-table file: the header comment block, a blank line and the
seed entry.  Two comment lines end in a trailing space, as in the
source. -/
def YAML_TEMPLATE : String :=
  "# This YAML file contains word mappings for correcting misread words in the \n" ++
  "# Optical Character Recognition (OCR) process.\n" ++
  "# Each line in this file represents a mapping from an incorrectly read word \n" ++
  "# (original_word) to the correct word (replacing_word).\n" ++
  "#\n" ++
  "# Please ensure that:\n" ++
  "# - You include the entire word for mapping, not just individual characters.\n" ++
  "# - Each mapping follows the format:\n" ++
  "#   original_word: replacing_word\n" ++
  "\n" ++
  "土兵: 士兵\n"

/-- The `try`-block body of `yaml_to_dict` (src/image_ocr.py lines
50-65): when `os.path.isfile` is false, split the path, create the
directory (`os.makedirs('')` raises `FileNotFoundError`, the first
`.error` case; an obstructed chain raises inside `makedirs`) and
open-for-write and write the template (lines 52-61, fallible as
`FS.writeFile` describes); then open and parse the file and apply
`or {}` (lines 64-65).  A Python exception is an `.error` carrying the
filesystem as mutated so far. -/
def yaml_to_dict_body (fs : FS) (file_path : String) : Except FS (YamlValue × FS) :=
  let created : Except FS FS :=
    if fs.isfile file_path then .ok fs
    else
      let directory := (splitPath file_path).1
      if directory = "" then .error fs
      else
        match fs.makedirs directory with
        | .error fs1 => .error fs1
        | .ok fs1 => fs1.writeFile file_path YAML_TEMPLATE
  match created with
  | .error fs1 => .error fs1
  | .ok fs1 =>
    match fs1.readFile file_path with
    | none => .error fs1
    | some content =>
      match safe_load content with
      | .error _ => .error fs1
      | .ok v => .ok (orEmptyDict v, fs1)

/-- `yaml_to_dict` (src/image_ocr.py lines 42-69): the `try` body
wrapped in the `except Exception` handler of lines 67-69, which logs a
warning and returns `{}`. -/
def yaml_to_dict (fs : FS) (file_path : String) : YamlValue × FS :=
  match yaml_to_dict_body fs file_path with
  | .ok (v, fs1) => (v, fs1)
  | .error fs1 => (.mapping [], fs1)

/-! ## Recruitment query (src/tkfmtools.py, `recruitment_query`)

The function drives one isolated browser session through a fixed step
sequence inside `try / except PlaywrightTimeoutError / finally`.  The
launch of the browser, context and page (lines 23-25) precedes the `try`
and carries no step timeout, so it is modeled as infallible; each
fallible step inside the `try` gets its outcome from an environment
function.  The run produces an event trace recording every step that was
reached, followed by the close calls of the `finally` block, so that the
cleanup claims are about the trace rather than true by mere typing. -/

/-- Outcome of one fallible browser step: it succeeds, raises
`PlaywrightTimeoutError`, or raises some other exception. -/
inductive StepResult where
  | ok
  | timeout
  | err
deriving Repr, DecidableEq

/-- The fallible steps of the `try` block (src/tkfmtools.py lines
31-63), in execution order: `page.goto` (line 33), the
all-seven-categories load probe (lines 37-38), the three settings clicks
(lines 42-50), one click per tag in input order (lines 53-55), the
image-load wait (line 59) and the result-table screenshot (line 63). -/
def querySteps (tags : List String) : List String :=
  ["goto", "wait_page_loaded", "open_settings", "set_display_format", "close_settings"]
    ++ tags.map (fun t => "click_tag_" ++ t)
    ++ ["wait_images_complete", "screenshot"]

/-- An observable event of one query session. -/
inductive SessionEvent where
  | attempt (stepIdx : Nat) (step : String)
  | closePage
  | closeContext
  | closeBrowser
deriving Repr, DecidableEq

/-- Run the steps in order starting at index `k`: every reached step is
recorded, and the first non-`ok` outcome raises, skipping the rest of
the `try` block. -/
def runSteps (env : Nat → StepResult) : Nat → List String → StepResult × List SessionEvent
  | _, [] => (.ok, [])
  | k, s :: rest =>
    match env k with
    | .ok =>
      let r := runSteps env (k + 1) rest
      (r.1, .attempt k s :: r.2)
    | outcome => (outcome, [.attempt k s])

/-- Discriminator: is the event a step execution (as opposed to one of
the `finally`-block close calls)? -/
def isAttempt : SessionEvent → Bool
  | .attempt _ _ => true
  | _ => false

/-- All of the first `n` steps succeed in the environment `env`. -/
def stepsOkBefore (env : Nat → StepResult) (n : Nat) : Bool :=
  (List.range n).all (fun k => env k == StepResult.ok)

/-- The returned `io.BytesIO` buffer: the PDF bytes and the stream
position. -/
structure Document where
  data : List Nat
  pos : Nat
deriving Repr, DecidableEq

/-- What `recruitment_query` produces: the buffer (line 81), `None`
after a caught `PlaywrightTimeoutError` (line 85), or a propagating
exception of any other kind. -/
inductive QueryResult where
  | success (doc : Document)
  | timedOut
  | raised
deriving Repr, DecidableEq

/-- `recruitment_query` (src/tkfmtools.py lines 11-92).  `env` gives
each fallible step's outcome, `shot` the bytes the screenshot of line 63
captures, and `pdfOf` models lines 67-75 — PIL decoding of the captured
bytes, `.convert('RGB')` and the save of that single image as a
single-page PDF — as a function from captured bytes to PDF bytes.
When every step succeeds the buffer holds `pdfOf shot` with its seek
position reset to `0` (line 78); a `PlaywrightTimeoutError` is caught
and turned into `None` (lines 83-85); any other exception propagates;
the `finally` block (lines 87-92) closes page, context and browser on
all three paths, appended to the event trace. -/
def recruitment_query (tags : List String) (env : Nat → StepResult)
    (shot : List Nat) (pdfOf : List Nat → List Nat) :
    QueryResult × List SessionEvent :=
  let run := runSteps env 0 (querySteps tags)
  let result : QueryResult :=
    match run.1 with
    | .ok => .success { data := pdfOf shot, pos := 0 }
    | .timeout => .timedOut
    | .err => .raised
  (result, run.2 ++ [.closePage, .closeContext, .closeBrowser])

section ExtractionLemmas

theorem indexOf?_eq_none_of_not_mem {t : String} {ws : List String}
    (h : t ∉ ws) : indexOf? t ws = none := by
  induction ws with
  | nil => rfl
  | cons w ws ih =>
    simp only [List.mem_cons, not_or] at h
    simp [indexOf?, Ne.symm h.1, ih h.2]

theorem indexOf?_lt_length {t : String} : ∀ {ws : List String} {i : Nat},
    indexOf? t ws = some i → i < ws.length
  | [], _, h => by simp [indexOf?] at h
  | w :: ws, i, h => by
    by_cases hw : w = t
    · rw [indexOf?, if_pos hw] at h
      cases h
      simp
    · rw [indexOf?, if_neg hw] at h
      rcases Option.map_eq_some'.mp h with ⟨j, hj, rfl⟩
      have := indexOf?_lt_length hj
      simp only [List.length_cons]
      omega

theorem indexOf?_take {t : String} : ∀ {ws : List String} {i n : Nat},
    indexOf? t ws = some i → i < n → indexOf? t (ws.take n) = some i
  | [], _, _, h, _ => by simp [indexOf?] at h
  | w :: ws, i, n, h, hn => by
    by_cases hw : w = t
    · rw [indexOf?, if_pos hw] at h
      cases h
      cases n with
      | zero => omega
      | succ n => rw [List.take_succ_cons, indexOf?, if_pos hw]
    · rw [indexOf?, if_neg hw] at h
      rcases Option.map_eq_some'.mp h with ⟨j, hj, rfl⟩
      cases n with
      | zero => omega
      | succ n =>
        rw [List.take_succ_cons, indexOf?, if_neg hw,
          indexOf?_take hj (by omega)]
        rfl

/-- `img_to_tags` is the window, corrected, then filtered to the
vocabulary. -/
theorem img_to_tags_eq_filter_window (results : List OcrSpan)
    (m : List (String × String)) :
    img_to_tags results m =
      ((windowWords results).map (applyMapping m)).filter
        (fun word => TAGS.contains word) := by
  unfold img_to_tags windowWords
  cases h : indexOf? refWord (results.map (·.text)) <;> simp [h]

theorem windowWords_length_le (results : List OcrSpan) :
    (windowWords results).length ≤ 8 := by
  unfold windowWords
  cases h : indexOf? refWord (results.map (·.text)) with
  | none => simp [h]
  | some i =>
    simp only [h, List.length_take]
    omega

end ExtractionLemmas

section SessionLemmas

theorem runSteps_spec (env : Nat → StepResult) :
    ∀ (steps : List String) (k : Nat),
      ((∀ j, j < steps.length → env (k + j) = .ok) ∧ (runSteps env k steps).1 = .ok) ∨
      (∃ j, j < steps.length ∧ (∀ i, i < j → env (k + i) = .ok) ∧
        env (k + j) ≠ .ok ∧ (runSteps env k steps).1 = env (k + j))
  | [], k => Or.inl ⟨fun j hj => absurd hj (Nat.not_lt_zero j), rfl⟩
  | s :: rest, k => by
    cases he : env k with
    | ok =>
      rcases runSteps_spec env rest (k + 1) with ⟨h1, h2⟩ | ⟨j, hj, hpre, hne, hval⟩
      · left
        refine ⟨?_, by simp [runSteps, he, h2]⟩
        intro j hj
        cases j with
        | zero => simpa using he
        | succ j =>
          have harith : k + (j + 1) = (k + 1) + j := by omega
          rw [harith]
          exact h1 j (by simp only [List.length_cons] at hj; omega)
      · right
        have harith : (k + 1) + j = k + (j + 1) := by omega
        refine ⟨j + 1, by simp only [List.length_cons]; omega, ?_, ?_, ?_⟩
        · intro i hi
          cases i with
          | zero => simpa using he
          | succ i =>
            have : k + (i + 1) = (k + 1) + i := by omega
            rw [this]
            exact hpre i (by omega)
        · rw [← harith]; exact hne
        · rw [← harith]
          simpa [runSteps, he] using hval
    | timeout =>
      right
      exact ⟨0, Nat.succ_pos _, fun i hi => absurd hi (Nat.not_lt_zero i),
        by simp [he], by simp [runSteps, he]⟩
    | err =>
      right
      exact ⟨0, Nat.succ_pos _, fun i hi => absurd hi (Nat.not_lt_zero i),
        by simp [he], by simp [runSteps, he]⟩

theorem runSteps_trace_attempts (env : Nat → StepResult) :
    ∀ (steps : List String) (k : Nat), ((runSteps env k steps).2).all isAttempt = true
  | [], _ => rfl
  | s :: rest, k => by
    cases he : env k with
    | ok => simpa [runSteps, he, isAttempt] using runSteps_trace_attempts env rest (k + 1)
    | timeout => simp [runSteps, he, isAttempt]
    | err => simp [runSteps, he, isAttempt]

end SessionLemmas

section YamlLemmas

theorem safe_load_template :
    safe_load YAML_TEMPLATE = .ok (.mapping [("土兵", "士兵")]) := rfl

theorem splitOnChar_ne_nil (sep : Char) (cs : List Char) :
    splitOnChar sep cs ≠ [] := by
  cases cs with
  | nil => simp [splitOnChar]
  | cons c cs =>
    unfold splitOnChar
    by_cases h : c = sep
    · simp [h]
    · simp only [if_neg h]
      cases splitOnChar sep cs <;> simp

theorem joinOn_splitOnChar (sep : Char) :
    ∀ cs : List Char, joinOn sep (splitOnChar sep cs) = cs
  | [] => rfl
  | c :: cs => by
    by_cases h : c = sep
    · rw [splitOnChar, if_pos h]
      cases hsc : splitOnChar sep cs with
      | nil => exact absurd hsc (splitOnChar_ne_nil sep cs)
      | cons l ls =>
        have hstep : joinOn sep ([] :: l :: ls) = sep :: joinOn sep (l :: ls) := rfl
        rw [hstep, ← hsc, joinOn_splitOnChar sep cs, h]
    · rw [splitOnChar]
      simp only [if_neg h]
      cases hsc : splitOnChar sep cs with
      | nil => exact absurd hsc (splitOnChar_ne_nil sep cs)
      | cons l ls =>
        have hrt := joinOn_splitOnChar sep cs
        rw [hsc] at hrt
        cases ls with
        | nil =>
          show c :: l = c :: cs
          rw [show joinOn sep [l] = l from rfl] at hrt
          rw [hrt]
        | cons l2 ls2 =>
          show (c :: l) ++ sep :: joinOn sep (l2 :: ls2) = c :: cs
          rw [show joinOn sep (l :: l2 :: ls2) = l ++ sep :: joinOn sep (l2 :: ls2)
            from rfl] at hrt
          rw [List.cons_append, hrt]

theorem joinOn_take_length_le (sep : Char) :
    ∀ (l : List (List Char)) (m : Nat),
      (joinOn sep (l.take m)).length ≤ (joinOn sep l).length
  | _, 0 => by simp [joinOn]
  | [], _ => by simp [joinOn]
  | [q], m + 1 => by
    rw [List.take_succ_cons, List.take_nil]
  | q :: q2 :: qs, m + 1 => by
    cases m with
    | zero =>
      show (joinOn sep [q]).length ≤ (joinOn sep (q :: q2 :: qs)).length
      show q.length ≤ (q ++ sep :: joinOn sep (q2 :: qs)).length
      simp
    | succ k =>
      have ih := joinOn_take_length_le sep (q2 :: qs) (k + 1)
      rw [show ((q2 :: qs).take (k + 1)) = q2 :: qs.take k from rfl] at ih
      show (q ++ sep :: joinOn sep (q2 :: qs.take k)).length ≤
        (q ++ sep :: joinOn sep (q2 :: qs)).length
      simp only [List.length_append, List.length_cons]
      omega

theorem mem_dirChain_length_le {q d : String} (h : q ∈ dirChain d) :
    q.data.length ≤ d.data.length := by
  unfold dirChain at h
  simp only [List.mem_map, List.mem_range] at h
  obtain ⟨k, _, rfl⟩ := h
  show (joinOn '/' ((splitOnChar '/' d.data).take (k + 1))).length ≤ d.data.length
  calc (joinOn '/' ((splitOnChar '/' d.data).take (k + 1))).length
      ≤ (joinOn '/' (splitOnChar '/' d.data)).length :=
        joinOn_take_length_le '/' (splitOnChar '/' d.data) (k + 1)
    _ = d.data.length := by rw [joinOn_splitOnChar]

theorem splitPath_fst_length_lt {p : String} (h : (splitPath p).2 ≠ "") :
    ((splitPath p).1).data.length < p.data.length := by
  have htl : 1 ≤ ((p.data.reverse.takeWhile (fun c => c ≠ '/')).reverse).length := by
    rcases Nat.eq_zero_or_pos
        ((p.data.reverse.takeWhile (fun c => c ≠ '/')).reverse).length with h0 | h1
    · exact absurd
        (show (splitPath p).2 = "" by
          show String.mk ((p.data.reverse.takeWhile (fun c => c ≠ '/')).reverse) = ""
          rw [List.length_eq_zero.mp h0]) h
    · exact h1
  have htl2 : ((p.data.reverse.takeWhile (fun c => c ≠ '/')).reverse).length ≤
      p.data.length := by
    rw [List.length_reverse]
    calc (p.data.reverse.takeWhile (fun c => c ≠ '/')).length
        ≤ p.data.reverse.length := (List.takeWhile_sublist _).length_le
      _ = p.data.length := List.length_reverse _
  show (if (p.data.take (p.data.length -
          ((p.data.reverse.takeWhile (fun c => c ≠ '/')).reverse).length)).all
          (fun c => c = '/')
      then p.data.take (p.data.length -
        ((p.data.reverse.takeWhile (fun c => c ≠ '/')).reverse).length)
      else ((p.data.take (p.data.length -
          ((p.data.reverse.takeWhile (fun c => c ≠ '/')).reverse).length)).reverse.dropWhile
          (fun c => c = '/')).reverse).length < p.data.length
  generalize ((p.data.reverse.takeWhile (fun c => c ≠ '/')).reverse).length = n at htl htl2 ⊢
  have hhr : (p.data.take (p.data.length - n)).length ≤ p.data.length - n := by
    rw [List.length_take]
    omega
  split
  · omega
  · calc (((p.data.take (p.data.length - n)).reverse.dropWhile
          (fun c => c = '/')).reverse).length
        ≤ (p.data.take (p.data.length - n)).reverse.length := by
          rw [List.length_reverse]
          exact (List.dropWhile_sublist _).length_le
      _ = (p.data.take (p.data.length - n)).length := List.length_reverse _
      _ < p.data.length := by omega

theorem not_mem_dirChain_of_basename_ne {p : String}
    (h : (splitPath p).2 ≠ "") : p ∉ dirChain (splitPath p).1 := by
  intro hmem
  have h1 := mem_dirChain_length_le hmem
  have h2 := splitPath_fst_length_lt h
  omega

end YamlLemmas

/-! ## Claims -/

/-- C1 (counterexample): the tag vocabulary does not have exactly 30
distinct values: deduplicated it has 33, so its size compared with 30 is
`false`. -/
theorem tags_vocabulary_size_not_thirty :
    TAGS.dedup.length = 33 ∧ (TAGS.dedup.length == 30) = false := by
  constructor <;> decide

/-- C1 (amended): the vocabulary `TAGS` is the concatenation of the
seven category groups of the source's set literal — elemental affinity
(5), role (5), race (3), body type (2), bust size (3), rank (3) and
combat-effect (12) — it has no duplicate, hence the seven categories are
pairwise disjoint, and it holds exactly 33 distinct string values. -/
theorem tags_vocabulary_thirty_three_in_seven_groups :
    TAGS = affinityTags ++ roleTags ++ raceTags ++ bodyTypeTags ++ bustTags ++
      rankTags ++ combatTags ∧
    TAGS.Nodup ∧ TAGS.length = 33 ∧
    affinityTags.length = 5 ∧ roleTags.length = 5 ∧ raceTags.length = 3 ∧
    bodyTypeTags.length = 2 ∧ bustTags.length = 3 ∧ rankTags.length = 3 ∧
    combatTags.length = 12 :=
  ⟨rfl, by decide, by decide, rfl, rfl, rfl, rfl, rfl, rfl, rfl⟩

/-- C2: when the recognized texts never contain the anchor `'招募條件'`,
`img_to_tags` returns the empty list, for every word mapping. -/
theorem img_to_tags_empty_of_no_anchor (results : List OcrSpan)
    (m : List (String × String)) (h : refWord ∉ results.map (·.text)) :
    img_to_tags results m = [] := by
  unfold img_to_tags
  simp [indexOf?_eq_none_of_not_mem h]

/-- Witness for C2: a span sequence without the anchor, holding a word
that is itself a valid tag, still extracts nothing. -/
theorem img_to_tags_empty_of_no_anchor_witness :
    img_to_tags [⟨[], "你好", 0⟩, ⟨[], "士兵", 0⟩] [] = [] :=
  img_to_tags_empty_of_no_anchor _ _ (by decide)

/-- C3: when the anchor is first found at index `i`, the extraction
result only depends on the spans up to offset `i + 8` exclusive —
truncating the input there leaves the output unchanged, so a word at
offset `i + 9` (or later) is never inspected — and the window taken at
the anchor has length at most 8, anchor included. -/
theorem img_to_tags_window_bound (results : List OcrSpan)
    (m : List (String × String)) (i : Nat)
    (h : indexOf? refWord (results.map (·.text)) = some i) :
    img_to_tags results m = img_to_tags (results.take (i + 8)) m ∧
    (windowWords results).length ≤ 8 := by
  refine ⟨?_, windowWords_length_le results⟩
  have htake : indexOf? refWord ((results.take (i + 8)).map (·.text)) = some i := by
    rw [List.map_take]
    exact indexOf?_take h (by omega)
  have hwin : (((results.take (i + 8)).map (·.text)).drop i).take 8
      = ((results.map (·.text)).drop i).take 8 := by
    rw [List.map_take, List.drop_take, Nat.add_sub_cancel_left, List.take_take,
      Nat.min_self]
  unfold img_to_tags
  simp only [h, htake, hwin]

/-- Witness for C3: the anchor sits at index 0 and a valid tag sits at
offset 9; the spans may be truncated at offset 8 without changing the
extraction. -/
theorem img_to_tags_window_bound_witness :
    img_to_tags
        [⟨[], "招募條件", 0⟩, ⟨[], "甲", 0⟩, ⟨[], "乙", 0⟩, ⟨[], "丙", 0⟩, ⟨[], "丁", 0⟩,
         ⟨[], "戊", 0⟩, ⟨[], "己", 0⟩, ⟨[], "庚", 0⟩, ⟨[], "辛", 0⟩, ⟨[], "士兵", 0⟩] [] =
      img_to_tags
        ([⟨[], "招募條件", 0⟩, ⟨[], "甲", 0⟩, ⟨[], "乙", 0⟩, ⟨[], "丙", 0⟩, ⟨[], "丁", 0⟩,
          ⟨[], "戊", 0⟩, ⟨[], "己", 0⟩, ⟨[], "庚", 0⟩, ⟨[], "辛", 0⟩, ⟨[], "士兵", 0⟩].take
          (0 + 8)) [] ∧
    (windowWords
        [⟨[], "招募條件", 0⟩, ⟨[], "甲", 0⟩, ⟨[], "乙", 0⟩, ⟨[], "丙", 0⟩, ⟨[], "丁", 0⟩,
         ⟨[], "戊", 0⟩, ⟨[], "己", 0⟩, ⟨[], "庚", 0⟩, ⟨[], "辛", 0⟩, ⟨[], "士兵", 0⟩]).length ≤
      8 :=
  img_to_tags_window_bound _ [] 0 (by decide)

/-- C4: the extraction filters the corrected window, and within the
window the value put in place of a word is its correction-table entry
when one exists (for any original word, even one that is itself a valid
tag) and the word itself otherwise; membership in `TAGS` is therefore
tested on the corrected value. -/
theorem img_to_tags_correction_precedence (results : List OcrSpan)
    (m : List (String × String)) :
    img_to_tags results m =
      ((windowWords results).map (applyMapping m)).filter
        (fun w => TAGS.contains w) ∧
    ∀ (k : Nat) (w : String), (windowWords results)[k]? = some w →
      (m.lookup w = none →
        ((windowWords results).map (applyMapping m))[k]? = some w) ∧
      ∀ v, m.lookup w = some v →
        ((windowWords results).map (applyMapping m))[k]? = some v := by
  refine ⟨img_to_tags_eq_filter_window results m, ?_⟩
  intro k w hk
  constructor
  · intro hnone
    rw [List.getElem?_map, hk]
    simp [applyMapping, hnone]
  · intro v hv
    rw [List.getElem?_map, hk]
    simp [applyMapping, hv]

/-- Witness for C4: the window word `士兵` is a valid tag, yet its
mapping entry `菁英` — a different valid tag — is what takes its place
and passes the vocabulary filter. -/
theorem img_to_tags_correction_precedence_witness :
    img_to_tags [⟨[], "招募條件", 0⟩, ⟨[], "士兵", 0⟩] [("士兵", "菁英")] =
      ((windowWords [⟨[], "招募條件", 0⟩, ⟨[], "士兵", 0⟩]).map
        (applyMapping [("士兵", "菁英")])).filter (fun w => TAGS.contains w) ∧
    ((windowWords [⟨[], "招募條件", 0⟩, ⟨[], "士兵", 0⟩]).map
        (applyMapping [("士兵", "菁英")]))[1]? = some "菁英" :=
  ⟨(img_to_tags_correction_precedence _ _).1,
   ((img_to_tags_correction_precedence
       [⟨[], "招募條件", 0⟩, ⟨[], "士兵", 0⟩] [("士兵", "菁英")]).2 1 "士兵"
     (by decide)).2 "菁英" (by decide)⟩

/-- C5: for every span sequence and correction mapping, the extraction
equals the corrected window filtered to vocabulary members with order
preserved, it is a sublist (subsequence) of the corrected window, and
every tag occurs in the output exactly as often as in the corrected
window — duplicates are not removed. -/
theorem img_to_tags_order_and_duplicates (results : List OcrSpan)
    (m : List (String × String)) :
    img_to_tags results m =
      ((windowWords results).map (applyMapping m)).filter
        (fun w => TAGS.contains w) ∧
    List.Sublist (img_to_tags results m)
      ((windowWords results).map (applyMapping m)) ∧
    ∀ t : String, (img_to_tags results m).count t =
      if t ∈ TAGS then ((windowWords results).map (applyMapping m)).count t
      else 0 := by
  have he := img_to_tags_eq_filter_window results m
  refine ⟨he, ?_, ?_⟩
  · rw [he]
    exact List.filter_sublist _
  · intro t
    rw [he]
    by_cases ht : t ∈ TAGS
    · rw [if_pos ht]
      exact List.count_filter (by simpa [List.elem_iff] using ht)
    · rw [if_neg ht]
      rw [List.count_eq_zero]
      intro hmem
      exact ht (by simpa [List.elem_iff] using List.of_mem_filter hmem)

/-- C6: for every tag list, step-outcome environment and captured bytes,
the query result is exactly one of: the complete document — the PDF of
the captured bytes with its seek position reset to 0 — when every step
succeeded; the typed `None` value when the first failing step raised the
timeout; or a propagating exception when the first failing step raised
anything else.  No other result (in particular no partial document) is
possible, and a step timeout never surfaces as an exception. -/
theorem recruitment_query_complete_or_typed_timeout (tags : List String)
    (env : Nat → StepResult) (shot : List Nat) (pdfOf : List Nat → List Nat) :
    (stepsOkBefore env (querySteps tags).length = true ∧
      (recruitment_query tags env shot pdfOf).1 =
        .success { data := pdfOf shot, pos := 0 }) ∨
    (∃ k, k < (querySteps tags).length ∧ env k = StepResult.timeout ∧
      stepsOkBefore env k = true ∧
      (recruitment_query tags env shot pdfOf).1 = .timedOut) ∨
    (∃ k, k < (querySteps tags).length ∧ env k = StepResult.err ∧
      stepsOkBefore env k = true ∧
      (recruitment_query tags env shot pdfOf).1 = .raised) := by
  have hq : (recruitment_query tags env shot pdfOf).1 =
      match (runSteps env 0 (querySteps tags)).1 with
      | .ok => .success { data := pdfOf shot, pos := 0 }
      | .timeout => .timedOut
      | .err => .raised := rfl
  rcases runSteps_spec env (querySteps tags) 0 with ⟨hall, hok⟩ | ⟨j, hj, hpre, hne, hval⟩
  · left
    refine ⟨?_, by rw [hq, hok]⟩
    rw [stepsOkBefore, List.all_eq_true]
    intro x hx
    rw [beq_iff_eq]
    simpa using hall x (List.mem_range.mp hx)
  · have hok : stepsOkBefore env j = true := by
      rw [stepsOkBefore, List.all_eq_true]
      intro x hx
      rw [beq_iff_eq]
      simpa using hpre x (List.mem_range.mp hx)
    simp only [Nat.zero_add] at hne hval
    cases hc : env j with
    | ok => exact absurd hc hne
    | timeout =>
      refine Or.inr (Or.inl ⟨j, hj, hc, hok, ?_⟩)
      rw [hq, hval, hc]
    | err =>
      refine Or.inr (Or.inr ⟨j, hj, hc, hok, ?_⟩)
      rw [hq, hval, hc]

/-- C7: on every path of a query — success, step timeout, or any other
step error — the event trace is the executed steps followed by exactly
the three `finally`-block close calls: page, then browsing context, then
browser. -/
theorem recruitment_query_closes_session_on_every_path (tags : List String)
    (env : Nat → StepResult) (shot : List Nat) (pdfOf : List Nat → List Nat) :
    ∃ tr, (recruitment_query tags env shot pdfOf).2 =
        tr ++ [SessionEvent.closePage, SessionEvent.closeContext,
          SessionEvent.closeBrowser] ∧
      tr.all isAttempt = true :=
  ⟨(runSteps env 0 (querySteps tags)).2, rfl,
    runSteps_trace_attempts env (querySteps tags) 0⟩

/-- C8 (code divergence): a correction-table file whose document is a
YAML sequence — here `- 土兵` and `- 士兵` — is returned by
`yaml_to_dict` as the parsed list itself, which is not a string-to-string
mapping, contradicting the function's `-> dict` annotation and its
docstring. -/
theorem yaml_to_dict_sequence_document_not_mapping :
    (yaml_to_dict
        ⟨[("./data/word_mappings.yaml", .file "- 土兵\n- 士兵\n")], ["./data"]⟩
        "./data/word_mappings.yaml").1 = .sequence ["土兵", "士兵"] ∧
    YamlValue.isMapping
      (yaml_to_dict
          ⟨[("./data/word_mappings.yaml", .file "- 土兵\n- 士兵\n")], ["./data"]⟩
          "./data/word_mappings.yaml").1 = false :=
  ⟨rfl, rfl⟩

/-- C9 (counterexample): for the non-existent path
`"word_mappings.yaml"`, whose directory part is empty, `os.makedirs('')`
raises, the handler swallows the error and returns `{}`: no file is
created and the subsequent load still yields `{}`, not the seeded
mapping. -/
theorem yaml_to_dict_no_directory_component_not_seeded :
    yaml_to_dict ⟨[], []⟩ "word_mappings.yaml" = (.mapping [], ⟨[], []⟩) ∧
    FS.isfile (yaml_to_dict ⟨[], []⟩ "word_mappings.yaml").2
      "word_mappings.yaml" = false ∧
    (yaml_to_dict (yaml_to_dict ⟨[], []⟩ "word_mappings.yaml").2
        "word_mappings.yaml").1 = .mapping [] ∧
    decide ((YamlValue.mapping []) = .mapping [("土兵", "士兵")]) = false :=
  ⟨rfl, rfl, rfl, rfl⟩

/-- C9 (amended): for every non-existent path whose directory part (the
portion before the last `'/'`) is non-empty, whose final component is
non-empty (a trailing-slash path makes `open(p, 'w')` raise), and which
the existing filesystem state does not obstruct — no prefix of the
directory chain exists as a regular file, and the path itself is not an
existing directory — one load call records the directory chain, writes
the resource file with the documented template, and returns the seeded
mapping `土兵 ↦ 士兵`; a subsequent load of the same path returns that
seeded mapping again. -/
theorem yaml_to_dict_creates_template_and_seed (fs : FS) (p : String)
    (habs : fs.isfile p = false) (hdir : (splitPath p).1 ≠ "")
    (hbase : (splitPath p).2 ≠ "")
    (hchain : ∀ q ∈ dirChain (splitPath p).1, fs.files.lookup q = none)
    (hnodir : p ∉ fs.dirs) :
    yaml_to_dict fs p =
      (.mapping [("土兵", "士兵")],
        { files := (p, .file YAML_TEMPLATE) :: fs.files,
          dirs := dirChain (splitPath p).1 ++ fs.dirs }) ∧
    (yaml_to_dict (yaml_to_dict fs p).2 p).1 = .mapping [("土兵", "士兵")] := by
  have hpnot : p ∉ dirChain (splitPath p).1 ++ fs.dirs := by
    intro hmem
    rcases List.mem_append.mp hmem with hc | hc
    · exact not_mem_dirChain_of_basename_ne hbase hc
    · exact hnodir hc
  have hwrite : ¬((splitPath p).2 = "" ∨ p ∈ dirChain (splitPath p).1 ++ fs.dirs) :=
    not_or.mpr ⟨hbase, hpnot⟩
  have hbody : yaml_to_dict_body fs p =
      .ok (.mapping [("土兵", "士兵")],
        { files := (p, .file YAML_TEMPLATE) :: fs.files,
          dirs := dirChain (splitPath p).1 ++ fs.dirs }) := by
    unfold yaml_to_dict_body
    rw [habs]
    simp only [Bool.false_eq_true, if_false, if_neg hdir, FS.makedirs, if_pos hchain,
      FS.writeFile]
    rw [if_neg hwrite]
    simp [FS.readFile, List.lookup, safe_load_template, orEmptyDict]
  have hfst : yaml_to_dict fs p =
      (.mapping [("土兵", "士兵")],
        { files := (p, .file YAML_TEMPLATE) :: fs.files,
          dirs := dirChain (splitPath p).1 ++ fs.dirs }) := by
    rw [yaml_to_dict, hbody]
  refine ⟨hfst, ?_⟩
  rw [hfst]
  have hbody2 : yaml_to_dict_body
      { files := (p, FileEntry.file YAML_TEMPLATE) :: fs.files,
        dirs := dirChain (splitPath p).1 ++ fs.dirs } p =
      .ok (.mapping [("土兵", "士兵")],
        { files := (p, FileEntry.file YAML_TEMPLATE) :: fs.files,
          dirs := dirChain (splitPath p).1 ++ fs.dirs }) := by
    unfold yaml_to_dict_body
    simp [FS.isfile, FS.readFile, List.lookup, safe_load_template, orEmptyDict]
  rw [yaml_to_dict, hbody2]

/-- Witness for C9 (amended): applied to the empty filesystem and the
path the source actually loads. -/
theorem yaml_to_dict_creates_template_and_seed_witness :
    yaml_to_dict ⟨[], []⟩ "./data/word_mappings.yaml" =
      (.mapping [("土兵", "士兵")],
        { files := [("./data/word_mappings.yaml", .file YAML_TEMPLATE)],
          dirs := dirChain (splitPath "./data/word_mappings.yaml").1 ++ [] }) ∧
    (yaml_to_dict (yaml_to_dict ⟨[], []⟩ "./data/word_mappings.yaml").2
        "./data/word_mappings.yaml").1 = .mapping [("土兵", "士兵")] :=
  yaml_to_dict_creates_template_and_seed ⟨[], []⟩ "./data/word_mappings.yaml"
    (by decide) (by decide) (by decide) (by decide) (by decide)

/-- C10: the extracted tag list never holds more than 8 entries, for
every input and every correction mapping: it is a filtering of a window
of at most 8 words. -/
theorem img_to_tags_length_le_eight (results : List OcrSpan)
    (m : List (String × String)) :
    (img_to_tags results m).length ≤ 8 := by
  rw [img_to_tags_eq_filter_window]
  calc (((windowWords results).map (applyMapping m)).filter
        (fun w => TAGS.contains w)).length
      ≤ ((windowWords results).map (applyMapping m)).length :=
        List.length_filter_le _ _
    _ = (windowWords results).length := List.length_map _ _
    _ ≤ 8 := windowWords_length_le results

end TkfmRecruitment
